import Mathlib

/-!
Verification development for the `lazywhisper` terminal dictation tool.

The Go sources are shallowly embedded: pure computations (path and
timestamp construction, directory listing/sorting, filename derivation)
become Lean functions over `String`/`List Char`; the stateful `Recorder`
and the Bubble Tea model become explicit state-passing functions, with
the outcomes of external effects (process spawn, HTTP call, JSON decode)
supplied as explicit environment records.  Go byte-level string
operations are modelled on `String.data` (`List Char`); all strings
involved are ASCII, where the two views coincide.
-/

namespace LazyWhisper

/-! ### Configuration constants (src/config/config.go) -/

def AppName : String := "open_whisper"

def RecordingsDir : String := "recordings"

def TranscriptionsDir : String := "transcriptions"

/-! ### Timestamps and the recording output path

`StartRecording` computes
`filepath.Join(appDataDir, "recordings", fmt.Sprintf("%s.wav", time.Now().Format("2006-01-02-15-04-05")))`.
The Go layout `2006-01-02-15-04-05` zero-pads the year to four digits and
every other component to two digits.  `time.Time` is external; we embed
the second-precision broken-down time the layout renders. -/

structure GoTime where
  year : Nat
  month : Nat
  day : Nat
  hour : Nat
  minute : Nat
  second : Nat
deriving DecidableEq, Repr

/-- Ranges of a real calendar instant, as produced by `time.Now()`
(year kept below 10000 so the `2006` layout field is exactly four digits). -/
def GoTime.InRange (t : GoTime) : Prop :=
  t.year < 10000 ∧ 1 ≤ t.month ∧ t.month ≤ 12 ∧ 1 ≤ t.day ∧ t.day ≤ 31 ∧
    t.hour < 24 ∧ t.minute < 60 ∧ t.second < 60

instance : DecidablePred GoTime.InRange := fun t => by
  unfold GoTime.InRange
  infer_instance

/-- Two-digit zero-padded decimal rendering (Go layout fields `01`, `02`, `15`, `04`, `05`). -/
def pad2 (n : Nat) : List Char :=
  [Nat.digitChar (n / 10), Nat.digitChar (n % 10)]

/-- Four-digit zero-padded decimal rendering (Go layout field `2006`). -/
def pad4 (n : Nat) : List Char :=
  [Nat.digitChar (n / 1000), Nat.digitChar (n / 100 % 10),
   Nat.digitChar (n / 10 % 10), Nat.digitChar (n % 10)]

/-- Characters of `t.Format("2006-01-02-15-04-05")`. -/
def timestampChars (t : GoTime) : List Char :=
  pad4 t.year ++ '-' :: (pad2 t.month ++ '-' :: (pad2 t.day ++ '-' ::
    (pad2 t.hour ++ '-' :: (pad2 t.minute ++ '-' :: pad2 t.second))))

def formatTimestamp (t : GoTime) : String :=
  String.mk (timestampChars t)

/-- The output file path computed by `StartRecording` (config.go line 79):
`filepath.Join(appDataDir, config.RecordingsDir, fmt.Sprintf("%s.wav", timestamp))`. -/
def outputFilePath (appDataDir : String) (t : GoTime) : String :=
  appDataDir ++ "/" ++ RecordingsDir ++ "/" ++ (formatTimestamp t ++ ".wav")

theorem digitChar_inj_lt16 : ∀ a < 16, ∀ b < 16,
    Nat.digitChar a = Nat.digitChar b → a = b := by decide

theorem pad2_inj {a b : Nat} (ha : a < 100) (hb : b < 100)
    (h : pad2 a = pad2 b) : a = b := by
  simp only [pad2, List.cons.injEq, and_true] at h
  obtain ⟨h1, h2⟩ := h
  have e1 : a / 10 = b / 10 :=
    digitChar_inj_lt16 _ (by omega) _ (by omega) h1
  have e2 : a % 10 = b % 10 :=
    digitChar_inj_lt16 _ (by omega) _ (by omega) h2
  omega

theorem pad4_inj {a b : Nat} (ha : a < 10000) (hb : b < 10000)
    (h : pad4 a = pad4 b) : a = b := by
  simp only [pad4, List.cons.injEq, and_true] at h
  obtain ⟨h1, h2, h3, h4⟩ := h
  have e1 : a / 1000 = b / 1000 :=
    digitChar_inj_lt16 _ (by omega) _ (by omega) h1
  have e2 : a / 100 % 10 = b / 100 % 10 :=
    digitChar_inj_lt16 _ (by omega) _ (by omega) h2
  have e3 : a / 10 % 10 = b / 10 % 10 :=
    digitChar_inj_lt16 _ (by omega) _ (by omega) h3
  have e4 : a % 10 = b % 10 :=
    digitChar_inj_lt16 _ (by omega) _ (by omega) h4
  omega

theorem timestampChars_inj {t1 t2 : GoTime}
    (h1 : t1.InRange) (h2 : t2.InRange)
    (h : timestampChars t1 = timestampChars t2) : t1 = t2 := by
  obtain ⟨hy1, hmo1, hmo1b, hd1, hd1b, hh1, hmi1, hs1⟩ := h1
  obtain ⟨hy2, hmo2, hmo2b, hd2, hd2b, hh2, hmi2, hs2⟩ := h2
  simp only [timestampChars, pad4, pad2, List.cons_append, List.nil_append,
    List.cons.injEq, and_true] at h
  obtain ⟨a1, a2, a3, a4, _, b1, b2, _, c1, c2, _, d1, d2, _, e1, e2, _, f1, f2⟩ := h
  have hy : t1.year = t2.year := by
    have q1 := digitChar_inj_lt16 _ (by omega) _ (by omega) a1
    have q2 := digitChar_inj_lt16 _ (by omega) _ (by omega) a2
    have q3 := digitChar_inj_lt16 _ (by omega) _ (by omega) a3
    have q4 := digitChar_inj_lt16 _ (by omega) _ (by omega) a4
    omega
  have hmo : t1.month = t2.month := by
    have q1 := digitChar_inj_lt16 _ (by omega) _ (by omega) b1
    have q2 := digitChar_inj_lt16 _ (by omega) _ (by omega) b2
    omega
  have hd : t1.day = t2.day := by
    have q1 := digitChar_inj_lt16 _ (by omega) _ (by omega) c1
    have q2 := digitChar_inj_lt16 _ (by omega) _ (by omega) c2
    omega
  have hh : t1.hour = t2.hour := by
    have q1 := digitChar_inj_lt16 _ (by omega) _ (by omega) d1
    have q2 := digitChar_inj_lt16 _ (by omega) _ (by omega) d2
    omega
  have hmi : t1.minute = t2.minute := by
    have q1 := digitChar_inj_lt16 _ (by omega) _ (by omega) e1
    have q2 := digitChar_inj_lt16 _ (by omega) _ (by omega) e2
    omega
  have hs : t1.second = t2.second := by
    have q1 := digitChar_inj_lt16 _ (by omega) _ (by omega) f1
    have q2 := digitChar_inj_lt16 _ (by omega) _ (by omega) f2
    omega
  cases t1
  cases t2
  simp_all

theorem outputFilePath_eq_iff {d : String} {t1 t2 : GoTime}
    (h : outputFilePath d t1 = outputFilePath d t2) :
    timestampChars t1 = timestampChars t2 := by
  have hd : (outputFilePath d t1).data = (outputFilePath d t2).data := by
    rw [h]
  simp only [outputFilePath, formatTimestamp, String.data_append,
    List.append_assoc] at hd
  have h1 := List.append_cancel_left hd
  have h2 := List.append_cancel_left h1
  have h3 := List.append_cancel_left h2
  have h4 := List.append_cancel_left h3
  exact List.append_cancel_right h4

/-- Claim C8: the output file path computed by `StartRecording` is a
deterministic function of the start time — a second-precision
timestamp-formatted filename in the recordings directory — and the
path-generating function is injective on start times whose second-precision
calendar readings differ (i.e. times at least one second apart). -/
theorem C8_outputFilePath_injective (d : String) (t1 t2 : GoTime)
    (h1 : t1.InRange) (h2 : t2.InRange) (hne : t1 ≠ t2) :
    outputFilePath d t1 ≠ outputFilePath d t2 := by
  intro h
  exact hne (timestampChars_inj h1 h2 (outputFilePath_eq_iff h))

/-- Witness for C8 at two concrete start times one second apart. -/
theorem C8_outputFilePath_injective_witness :
    outputFilePath "/home/u/.open_whisper" ⟨2024, 6, 1, 0, 0, 0⟩ ≠
      outputFilePath "/home/u/.open_whisper" ⟨2024, 6, 1, 0, 0, 1⟩ :=
  C8_outputFilePath_injective _ _ _ (by decide) (by decide) (by decide)

/-! ### Errors

The Go code reports errors as `fmt.Errorf` values; we embed the distinct
error conditions as an inductive type. -/

inductive Err where
  | alreadyRecording
  | notRecording
  | startFailed
  | ioError
  | networkError
  | apiError (status : Nat) (body : String)
  | decodeError
  | notFound
deriving DecidableEq, Repr

/-! ### Recorder (the `audio` package, src/config/config.go part 2)

`Recorder` holds `cmd *exec.Cmd`, `outputFile string`, `isRecording bool`,
`appDataDir string`, `timer *time.Timer`.  The subprocess handle and the
timer are opaque external resources, embedded as `Option Unit` (present
or nil).  Outcomes of external effects are passed in explicitly:
`spawnOk` is whether `cmd.Start()` succeeds; the fields of `StopEnv` are
the outcomes of the interrupt signal, the bounded wait, the process-table
scan and the output-file poll, none of which influence the recorder's
state mutations. -/

structure Recorder where
  cmd : Option Unit
  outputFile : String
  isRecording : Bool
  appDataDir : String
  timer : Option Unit
deriving DecidableEq, Repr

/-- `NewRecorder()`: idle recorder with no handle, no timer. -/
def NewRecorder (appDataDir : String) : Recorder :=
  { cmd := none, outputFile := "", isRecording := false,
    appDataDir := appDataDir, timer := none }

structure StartEnv where
  spawnOk : Bool
deriving DecidableEq, Repr

structure StartResult where
  state : Recorder
  spawned : Bool
  err : Option Err
deriving DecidableEq, Repr

/-- `Recorder.StartRecording` (config.go lines 72-106).  Mirrors the
assignment order of the source: `outputFile` and `cmd` are assigned
before `cmd.Start()` is attempted, so a failed spawn leaves them set;
the timer is armed and `isRecording` set only after a successful spawn. -/
def StartRecording (r : Recorder) (now : GoTime) (env : StartEnv) : StartResult :=
  if r.isRecording then
    { state := r, spawned := false, err := some .alreadyRecording }
  else
    let r1 := { r with outputFile := outputFilePath r.appDataDir now }
    let r2 := { r1 with cmd := some () }
    if env.spawnOk then
      { state := { r2 with timer := some (), isRecording := true },
        spawned := true, err := none }
    else
      { state := r2, spawned := true, err := some .startFailed }

structure StopEnv where
  interruptOk : Bool
  exitedWithinGrace : Bool
  psListOk : Bool
  outputFileAppeared : Bool
deriving DecidableEq, Repr

/-- `Recorder.StopRecording` (config.go lines 108-158).  After the
`isRecording` guard: the timer is stopped and nilled; the interrupt /
kill / bounded wait, the orphan scan and the output-file poll touch only
external resources; finally `isRecording = false` and `cmd = nil` are
assigned unconditionally and `nil` is returned. -/
def StopRecording (r : Recorder) (env : StopEnv) : Recorder × Option Err :=
  if !r.isRecording then
    (r, some .notRecording)
  else
    let r1 := { r with timer := none }
    ({ r1 with isRecording := false, cmd := none }, none)

/-- `Recorder.IsRecording` (config.go lines 209-211). -/
def Recorder.IsRecording (r : Recorder) : Bool :=
  r.isRecording

/-- `Recorder.GetOutputFile` (config.go lines 205-207). -/
def Recorder.GetOutputFile (r : Recorder) : String :=
  r.outputFile

/-- C2 as stated is false: a `StartRecording` whose spawn fails leaves the
subprocess handle assigned with `isRecording` still false, and the
subsequent `StopRecording` takes the `NotRecording` early return, which
leaves that handle in place.  Concretely, after
`StartRecording` (spawn fails) then `StopRecording`, the recorder is not
active but its subprocess handle is not cleared. -/
theorem C2_counterexample :
    Recorder.IsRecording
        (StopRecording
          (StartRecording (NewRecorder "/home/u/.open_whisper")
            ⟨2024, 6, 1, 0, 0, 0⟩ ⟨false⟩).state
          ⟨true, true, true, true⟩).1 = false ∧
      (StopRecording
          (StartRecording (NewRecorder "/home/u/.open_whisper")
            ⟨2024, 6, 1, 0, 0, 0⟩ ⟨false⟩).state
          ⟨true, true, true, true⟩).1.cmd ≠ none := by
  constructor
  · rfl
  · decide

/-- Claim C2, amended: after any `StopRecording` call returns, the
recorder reports not active, regardless of the outcomes of the subprocess
shutdown, the orphan scan and the output-file poll; whenever the call
found a session active it also clears the subprocess handle and returns
success.  A call with no active session returns `NotRecording` and leaves
all fields unchanged, so a handle left assigned by a failed
`StartRecording` spawn is not cleared by it. -/
theorem C2_stop_clears_session (r : Recorder) (env : StopEnv) :
    Recorder.IsRecording (StopRecording r env).1 = false ∧
      (r.isRecording = true →
        (StopRecording r env).1.cmd = none ∧
          (StopRecording r env).1.timer = none ∧
          (StopRecording r env).2 = none) := by
  constructor
  · by_cases h : r.isRecording = true
    · simp [StopRecording, Recorder.IsRecording, h]
    · simp only [Bool.not_eq_true] at h
      simp [StopRecording, Recorder.IsRecording, h]
  · intro h
    simp [StopRecording, h]

/-- A concrete recorder with an active session, for witnesses. -/
def activeRecorderC2 : Recorder :=
  { cmd := some (), outputFile := "f.wav", isRecording := true,
    appDataDir := "d", timer := some () }

/-- Witness for C2 (amended): a concrete active recorder, any stop
environment outcome. -/
theorem C2_stop_clears_session_witness :
    Recorder.IsRecording
        (StopRecording activeRecorderC2 ⟨false, false, false, false⟩).1 = false ∧
      (StopRecording activeRecorderC2 ⟨false, false, false, false⟩).1.cmd = none :=
  ⟨(C2_stop_clears_session _ _).1,
    ((C2_stop_clears_session activeRecorderC2 ⟨false, false, false, false⟩).2 rfl).1⟩

/-- Claim C7: whenever a recording session is active, `StartRecording`
fails with the already-recording error, the entire recorder state
(subprocess handle, output file path, active flag, auto-stop timer) is
returned untouched, and no subprocess spawn is attempted. -/
theorem C7_start_while_active_untouched (r : Recorder) (now : GoTime)
    (env : StartEnv) (h : r.isRecording = true) :
    StartRecording r now env =
      { state := r, spawned := false, err := some .alreadyRecording } := by
  simp [StartRecording, h]

/-- A concrete recorder with an active session, for witnesses. -/
def activeRecorderC7 : Recorder :=
  { cmd := some (), outputFile := "f.wav", isRecording := true,
    appDataDir := "d", timer := some () }

/-- Witness for C7 at a concrete active recorder. -/
theorem C7_start_while_active_untouched_witness :
    StartRecording activeRecorderC7 ⟨2024, 6, 1, 0, 0, 0⟩ ⟨true⟩ =
      { state := activeRecorderC7,
        spawned := false, err := some .alreadyRecording } :=
  C7_start_while_active_untouched _ _ _ rfl

/-! ### Go byte-level string and path helpers

`filepath.Base`, `filepath.Ext`, `strings.TrimSuffix` and Go string
slicing operate on bytes; we embed them on `String.data` (all strings
involved are ASCII, where bytes and characters coincide). -/

/-- Trailing-separator stripping step of `filepath.Base`. -/
def dropTrailingSep (l : List Char) : List Char :=
  (l.reverse.dropWhile (· == '/')).reverse

/-- The final path element: everything after the last separator. -/
def afterLastSep (l : List Char) : List Char :=
  (l.reverse.takeWhile (fun c => !(c == '/'))).reverse

/-- Go `filepath.Base`: `""` ↦ `"."`; otherwise strip trailing slashes and
keep everything after the last slash, an all-slash path giving `"/"`. -/
def goBase (s : String) : String :=
  if s.data = [] then "."
  else
    let p := dropTrailingSep s.data
    if afterLastSep p = [] then "/" else String.mk (afterLastSep p)

/-- Scan for `filepath.Ext`, walking the reversed name and accumulating
the suffix; stops at a separator. -/
def goExtAux : List Char → List Char → List Char
  | [], _ => []
  | c :: rest, acc =>
    if c == '/' then []
    else if c == '.' then '.' :: acc
    else goExtAux rest (c :: acc)

/-- Go `filepath.Ext`: the suffix beginning at the final dot of the final
path element, or `""` when there is none. -/
def goExt (s : String) : String :=
  String.mk (goExtAux s.data.reverse [])

/-- The Go slice `s[:len(s)-4]` (part_000 line 97): defined exactly when
`len(s)-4` is not negative, i.e. the slice panics on strings shorter
than four bytes. -/
def stripLast4 (s : String) : Option String :=
  if 4 ≤ s.data.length then some (String.mk (s.data.take (s.data.length - 4)))
  else none

/-! ### Transcriber (the `audio` package, src/unnamed/part_000)

`Transcribe` opens the audio file, posts it as multipart form data, and
on a 200 response with a decodable body writes the returned text to the
transcriptions directory.  The filesystem and network outcomes are
passed in: `openOk` is whether `os.Open` succeeds, `sendOk` whether
`client.Do` succeeds, `status` the response status, `textField` the
`text` field when the body decodes (`none` for a malformed body), and
`body` the raw body used in the API-error message.  `os.WriteFile` is
external; the embedded result records the attempted write's path and
content together with the returned text. -/

structure TranscribeEnv where
  openOk : Bool
  sendOk : Bool
  status : Nat
  textField : Option String
  body : String
deriving DecidableEq, Repr

inductive TResult where
  | ok (returned : String) (writePath : String) (writeContent : String)
  | err (e : Err)
  | panicked
deriving DecidableEq, Repr

/-- `Transcriber.Transcribe` (part_000 lines 38-104), with the filename
derivation `filepath.Base(audioFile[:len(audioFile)-4])` of line 97 and
the join `filepath.Join(appDataDir, TranscriptionsDir, timestamp+".txt")`
of line 98. -/
def Transcribe (appDataDir audioFile : String) (env : TranscribeEnv) : TResult :=
  if !env.openOk then .err .ioError
  else if !env.sendOk then .err .networkError
  else if env.status ≠ 200 then .err (.apiError env.status env.body)
  else
    match env.textField with
    | none => .err .decodeError
    | some text =>
      match stripLast4 audioFile with
      | none => .panicked
      | some stem =>
        .ok text
          (appDataDir ++ "/" ++ TranscriptionsDir ++ "/" ++ (goBase stem ++ ".txt"))
          text

/-- The name with the extension removed (spec side). -/
def stripExtension (s : String) : String :=
  String.mk (s.data.take (s.data.length - (goExt s).data.length))

/-- The transcription filename as the spec's words describe it, for the
refinement comparison in C3: "the audio file's base name with its
extension replaced by .txt". -/
def specTranscriptionFileName (audioFile : String) : String :=
  stripExtension (goBase audioFile) ++ ".txt"

/-! Auxiliary facts about the path helpers. -/

theorem takeWhile_append_sentinel {p : Char → Bool} :
    ∀ (as : List Char) (b : Char) (bs : List Char),
      (∀ a ∈ as, p a = true) → p b = false →
      List.takeWhile p (as ++ b :: bs) = as := by
  intro as
  induction as with
  | nil =>
    intro b bs _ hb
    simp [List.takeWhile_cons, hb]
  | cons a as ih =>
    intro b bs h hb
    have ha : p a = true := h a (List.mem_cons_self a as)
    simp only [List.cons_append, List.takeWhile_cons, ha, if_true]
    rw [ih b bs (fun x hx => h x (List.mem_cons_of_mem a hx)) hb]

theorem digitChar_ne_slash (n : Nat) : Nat.digitChar n ≠ '/' := by
  rcases Nat.lt_or_ge n 16 with h | h
  · revert h
    revert n
    decide
  · have hstar : Nat.digitChar n = '*' := by
      unfold Nat.digitChar
      repeat rw [if_neg (by omega)]
    rw [hstar]
    decide

theorem slash_ne_digitChar (n : Nat) : '/' ≠ Nat.digitChar n :=
  fun h => digitChar_ne_slash n h.symm

theorem slash_not_mem_timestampChars (t : GoTime) : '/' ∉ timestampChars t := by
  intro h
  simp only [timestampChars, pad4, pad2, List.cons_append, List.nil_append,
    List.mem_cons, List.not_mem_nil, or_false] at h
  rcases h with h | h | h | h | h | h | h | h | h | h | h | h | h | h | h | h | h | h | h <;>
    first
      | exact slash_ne_digitChar _ h
      | exact absurd h (by decide)

theorem timestampChars_ne_nil (t : GoTime) : timestampChars t ≠ [] := by
  simp [timestampChars, pad4]

/-- `goBase` of a path whose final element `name` is nonempty and
slash-free is `name`. -/
theorem goBase_append_slash (pre name : List Char) (hne : name ≠ [])
    (hsl : '/' ∉ name) :
    goBase (String.mk (pre ++ '/' :: name)) = String.mk name := by
  obtain ⟨x, xs, hx⟩ := List.exists_cons_of_ne_nil (l := name.reverse)
    (by simpa using hne)
  have hxmem : x ∈ name := by
    rw [← List.mem_reverse, hx]
    exact List.mem_cons_self x xs
  have hxs : (x == '/') = false := by
    rw [beq_eq_false_iff_ne]
    intro hcontra
    exact hsl (hcontra ▸ hxmem)
  have hrev : (pre ++ '/' :: name).reverse = name.reverse ++ '/' :: pre.reverse := by
    simp [List.reverse_append, List.reverse_cons, List.append_assoc]
  have hdrop : dropTrailingSep (pre ++ '/' :: name) = pre ++ '/' :: name := by
    unfold dropTrailingSep
    rw [hrev, hx, List.cons_append, List.dropWhile_cons]
    rw [hxs]
    simp only [Bool.false_eq_true, if_false]
    rw [← List.cons_append, ← hx, ← hrev, List.reverse_reverse]
  have htake : afterLastSep (pre ++ '/' :: name) = name := by
    unfold afterLastSep
    rw [hrev, takeWhile_append_sentinel name.reverse '/' pre.reverse
      (fun a ha => by
        have hne' : (a == '/') = false := by
          rw [beq_eq_false_iff_ne]
          intro hc
          exact hsl (hc ▸ (List.mem_reverse.mp ha))
        simp [hne'])
      (by decide), List.reverse_reverse]
  unfold goBase
  rw [if_neg (by simp)]
  simp only [hdrop, htake]
  rw [if_neg hne]

/-- Structure of the output path: the directories, the timestamp stem and
the `.wav` suffix, as flat character lists. -/
theorem outputFilePath_data (d : String) (t : GoTime) :
    (outputFilePath d t).data =
      ((d.data ++ '/' :: RecordingsDir.data) ++ '/' :: timestampChars t) ++
        ['.', 'w', 'a', 'v'] := by
  simp [outputFilePath, formatTimestamp, String.data_append, List.append_assoc]

theorem stripLast4_outputFilePath (d : String) (t : GoTime) :
    stripLast4 (outputFilePath d t) =
      some (String.mk ((d.data ++ '/' :: RecordingsDir.data) ++ '/' :: timestampChars t)) := by
  have hlen4 : (outputFilePath d t).data.length =
      ((d.data ++ '/' :: RecordingsDir.data) ++ '/' :: timestampChars t).length + 4 := by
    rw [outputFilePath_data, List.length_append]
    rfl
  have hts : (outputFilePath d t).data.take ((outputFilePath d t).data.length - 4) =
      (d.data ++ '/' :: RecordingsDir.data) ++ '/' :: timestampChars t := by
    rw [hlen4, Nat.add_sub_cancel, outputFilePath_data]
    exact List.take_left _ _
  unfold stripLast4
  rw [if_pos (by omega), hts]

theorem goBase_stem_outputFilePath (d : String) (t : GoTime) :
    goBase (String.mk ((d.data ++ '/' :: RecordingsDir.data) ++ '/' :: timestampChars t)) =
      formatTimestamp t :=
  goBase_append_slash _ _ (timestampChars_ne_nil t) (slash_not_mem_timestampChars t)

/-- C3 as stated is false: the code strips the last four bytes of the
audio path rather than its extension, so for an openable path
`/d/a.flac` and a 200 response with text field `hello`, `Transcribe`
writes to `a..txt`, not to the extension-replaced name `a.txt`. -/
theorem C3_counterexample :
    Transcribe "D" "/d/a.flac" ⟨true, true, 200, some "hello", ""⟩ =
        .ok "hello" "D/transcriptions/a..txt" "hello" ∧
      "D/transcriptions/a..txt" ≠
        "D" ++ "/" ++ TranscriptionsDir ++ "/" ++ specTranscriptionFileName "/d/a.flac" := by
  constructor
  · decide
  · decide

/-- Claim C3, amended: for every audio file path of length at least four
that can be opened, and every API response with status 200 whose body
has a `text` field, `Transcribe` writes exactly that text, byte for
byte, to the transcriptions directory under the name obtained by
dropping the path's last four bytes, taking the base name and appending
`.txt`, and returns that same text; for every path produced by
`StartRecording` — which always ends in `.wav` — that name is the shared
timestamp stem with `.txt`, i.e. the base name with its extension
replaced by `.txt` as the spec describes. -/
theorem C3_transcribe_writes_verbatim (dir file : String) (env : TranscribeEnv)
    (text : String) (hopen : env.openOk = true) (hsend : env.sendOk = true)
    (hstatus : env.status = 200) (htext : env.textField = some text)
    (hlen : 4 ≤ file.data.length) :
    Transcribe dir file env =
        .ok text
          (dir ++ "/" ++ TranscriptionsDir ++ "/" ++
            (goBase (String.mk (file.data.take (file.data.length - 4))) ++ ".txt"))
          text ∧
      ∀ (d : String) (t : GoTime),
        Transcribe dir (outputFilePath d t) env =
          .ok text
            (dir ++ "/" ++ TranscriptionsDir ++ "/" ++ (formatTimestamp t ++ ".txt"))
            text := by
  constructor
  · unfold Transcribe
    rw [hopen, hsend, hstatus, htext]
    simp only [Bool.not_true, Bool.false_eq_true, if_false, ne_eq,
      not_true_eq_false]
    unfold stripLast4
    rw [if_pos hlen]
  · intro d t
    unfold Transcribe
    rw [hopen, hsend, hstatus, htext]
    simp only [Bool.not_true, Bool.false_eq_true, if_false, ne_eq,
      not_true_eq_false, stripLast4_outputFilePath, goBase_stem_outputFilePath]

/-- Witness for C3 (amended) at a concrete `.wav` path and stub response. -/
theorem C3_transcribe_writes_verbatim_witness :
    Transcribe "D" "/d/r/2024-06-01-00-00-00.wav" ⟨true, true, 200, some "hello", ""⟩ =
      .ok "hello" "D/transcriptions/2024-06-01-00-00-00.txt" "hello" := by
  have h := (C3_transcribe_writes_verbatim "D" "/d/r/2024-06-01-00-00-00.wav"
    ⟨true, true, 200, some "hello", ""⟩ "hello" rfl rfl rfl rfl (by decide)).1
  rw [h]
  decide

/-- Claim C10: the filename derivation removes exactly the last four
bytes of the audio path; the slice is within bounds precisely when the
path has length at least four; every path `StartRecording` produces ends
in the four-byte suffix `.wav` and so satisfies the precondition; and
`Transcribe` itself performs no such check — on a shorter openable path
the slice panics. -/
theorem C10_slice_bounds :
    (∀ s : String, (stripLast4 s).isSome = true ↔ 4 ≤ s.data.length) ∧
      (∀ (d : String) (t : GoTime),
        4 ≤ (outputFilePath d t).data.length ∧
          (stripLast4 (outputFilePath d t)).isSome = true) ∧
      Transcribe "D" "abc" ⟨true, true, 200, some "x", ""⟩ = .panicked := by
  refine ⟨?_, ?_, by decide⟩
  · intro s
    unfold stripLast4
    by_cases h : 4 ≤ s.data.length
    · simp [h]
    · simp [h]
  · intro d t
    have hd := outputFilePath_data d t
    have hlen : 4 ≤ (outputFilePath d t).data.length := by
      rw [hd, List.length_append]
      simp only [List.length_cons]
      omega
    refine ⟨hlen, ?_⟩
    unfold stripLast4
    rw [if_pos hlen]
    rfl

/-! ### Bytewise string comparison

Go compares strings byte by byte; `transcriptionFiles[i] > transcriptionFiles[j]`
in the sort callback is this lexicographic order.  `goltb as bs` is
`as < bs`. -/

def goltb : List Char → List Char → Bool
  | [], [] => false
  | [], _ :: _ => true
  | _ :: _, [] => false
  | a :: as, b :: bs => if a < b then true else if b < a then false else goltb as bs

/-- Descending comparison `a ≥ b`, the order the sort callback induces. -/
def StrGe (a b : String) : Prop := goltb a.data b.data = false

instance : ∀ a b, Decidable (StrGe a b) := fun a b => by
  unfold StrGe
  infer_instance

theorem goltb_asymm : ∀ as bs, goltb as bs = true → goltb bs as = false := by
  intro as
  induction as with
  | nil =>
    intro bs h
    cases bs with
    | nil => simp [goltb] at h
    | cons b bs => simp [goltb]
  | cons a as ih =>
    intro bs h
    cases bs with
    | nil => simp [goltb] at h
    | cons b bs =>
      simp only [goltb] at h ⊢
      rcases lt_trichotomy a b with hab | hab | hab
      · rw [if_neg (lt_asymm hab), if_pos hab]
      · subst hab
        rw [if_neg (lt_irrefl a), if_neg (lt_irrefl a)] at h ⊢
        exact ih bs h
      · rw [if_neg (lt_asymm hab), if_pos hab] at h
        exact absurd h (by decide)

theorem goltb_or_of_lt : ∀ as bs cs, goltb as cs = true →
    goltb as bs = true ∨ goltb bs cs = true := by
  intro as
  induction as with
  | nil =>
    intro bs cs h
    cases cs with
    | nil => simp [goltb] at h
    | cons c cs =>
      cases bs with
      | nil => right; simp [goltb]
      | cons b bs => left; simp [goltb]
  | cons a as ih =>
    intro bs cs h
    cases cs with
    | nil => simp [goltb] at h
    | cons c cs =>
      cases bs with
      | nil => right; simp [goltb]
      | cons b bs =>
        simp only [goltb] at h ⊢
        rcases lt_trichotomy a c with hac | hac | hac
        · rcases lt_trichotomy a b with hab | hab | hab
          · left
            rw [if_pos hab]
          · subst hab
            right
            rw [if_pos hac]
          · right
            rw [if_pos (lt_trans hab hac)]
        · subst hac
          rw [if_neg (lt_irrefl a), if_neg (lt_irrefl a)] at h
          rcases lt_trichotomy a b with hab | hab | hab
          · left
            rw [if_pos hab]
          · subst hab
            rcases ih bs cs h with h' | h'
            · left
              rw [if_neg (lt_irrefl a), if_neg (lt_irrefl a)]
              exact h'
            · right
              rw [if_neg (lt_irrefl a), if_neg (lt_irrefl a)]
              exact h'
          · right
            rw [if_pos hab]
        · rw [if_neg (lt_asymm hac), if_pos hac] at h
          exact absurd h (by decide)

theorem strGe_trans {a b c : String} (hab : StrGe a b) (hbc : StrGe b c) :
    StrGe a c := by
  unfold StrGe at *
  by_contra h
  rw [Bool.not_eq_false] at h
  rcases goltb_or_of_lt a.data b.data c.data h with h' | h'
  · rw [hab] at h'
    exact absurd h' (by decide)
  · rw [hbc] at h'
    exact absurd h' (by decide)

theorem strGe_of_lt {a b : String} (h : goltb a.data b.data = true) : StrGe b a := by
  unfold StrGe
  exact goltb_asymm _ _ h

theorem strGe_total (a b : String) : StrGe a b ∨ StrGe b a := by
  by_cases h : goltb a.data b.data = true
  · right
    exact strGe_of_lt h
  · left
    unfold StrGe
    exact Bool.not_eq_true _ ▸ (Bool.of_not_eq_true h)

/-! ### Transcription store: listing (src/main.go `loadTranscriptions`)

`loadTranscriptions` reads the directory, collects the names of
non-directory entries with extension `.txt` in directory order, then
sorts with `sort.Slice(..., func(i, j) { return files[i] > files[j] })`
— descending bytewise order.  `sort.Slice` is embedded as insertion
sort by the same comparator; on the duplicate-free name lists a
directory produces, any sort by this comparator yields the same list. -/

structure DirEntry where
  name : String
  isDir : Bool
deriving DecidableEq, Repr

/-- Insert into a descending-sorted list: skip over larger elements. -/
def insertDesc (x : String) : List String → List String
  | [] => [x]
  | y :: ys => if goltb x.data y.data then y :: insertDesc x ys else x :: y :: ys

def sortDesc : List String → List String
  | [] => []
  | x :: xs => insertDesc x (sortDesc xs)

/-- `loadTranscriptions` (main.go lines 255-280) as a function of the
directory listing. -/
def loadTranscriptions (entries : List DirEntry) : List String :=
  sortDesc ((entries.filter fun e => !e.isDir && (goExt e.name == ".txt")).map
    DirEntry.name)

theorem insertDesc_perm (x : String) : ∀ l, (insertDesc x l).Perm (x :: l) := by
  intro l
  induction l with
  | nil => simp [insertDesc]
  | cons y ys ih =>
    unfold insertDesc
    by_cases h : goltb x.data y.data = true
    · rw [if_pos h]
      exact (ih.cons y).trans (List.Perm.swap x y ys)
    · rw [if_neg h]

theorem sortDesc_perm : ∀ l, (sortDesc l).Perm l := by
  intro l
  induction l with
  | nil => simp [sortDesc]
  | cons x xs ih =>
    unfold sortDesc
    exact (insertDesc_perm x (sortDesc xs)).trans (ih.cons x)

theorem insertDesc_sorted (x : String) : ∀ l, l.Pairwise StrGe →
    (insertDesc x l).Pairwise StrGe := by
  intro l
  induction l with
  | nil =>
    intro _
    simp [insertDesc]
  | cons y ys ih =>
    intro h
    rw [List.pairwise_cons] at h
    obtain ⟨hy, hys⟩ := h
    unfold insertDesc
    by_cases hlt : goltb x.data y.data = true
    · rw [if_pos hlt]
      rw [List.pairwise_cons]
      refine ⟨?_, ih hys⟩
      intro z hz
      have hz' : z = x ∨ z ∈ ys := by
        have := (insertDesc_perm x ys).mem_iff.mp hz
        simpa using this
      rcases hz' with rfl | hz'
      · exact strGe_of_lt hlt
      · exact hy z hz'
    · rw [if_neg hlt]
      have hxy : StrGe x y := by
        unfold StrGe
        exact Bool.not_eq_true _ ▸ (Bool.of_not_eq_true hlt)
      rw [List.pairwise_cons]
      refine ⟨?_, List.pairwise_cons.mpr ⟨hy, hys⟩⟩
      intro z hz
      rcases List.mem_cons.mp hz with rfl | hz'
      · exact hxy
      · exact strGe_trans hxy (hy z hz')

theorem sortDesc_sorted : ∀ l, (sortDesc l).Pairwise StrGe := by
  intro l
  induction l with
  | nil => simp [sortDesc]
  | cons x xs ih =>
    unfold sortDesc
    exact insertDesc_sorted x (sortDesc xs) ih

/-- Claim C5: `List()` on an empty directory returns the empty sequence;
on every directory it returns exactly the names of the non-directory
entries with extension `.txt` (as a permutation of that filtered
sequence), sorted descending (each name is `≥` every later one in the
bytewise order); and on the two files of the spec's example the June
file comes first. -/
theorem C5_loadTranscriptions :
    loadTranscriptions [] = [] ∧
      (∀ entries : List DirEntry,
        (loadTranscriptions entries).Perm
          ((entries.filter fun e => !e.isDir && (goExt e.name == ".txt")).map
            DirEntry.name)) ∧
      (∀ entries : List DirEntry,
        (loadTranscriptions entries).Pairwise StrGe) ∧
      loadTranscriptions
          [⟨"2024-01-01-00-00-00.txt", false⟩, ⟨"2024-06-01-00-00-00.txt", false⟩] =
        ["2024-06-01-00-00-00.txt", "2024-01-01-00-00-00.txt"] := by
  refine ⟨rfl, ?_, ?_, by decide⟩
  · intro entries
    exact sortDesc_perm _
  · intro entries
    exact sortDesc_sorted _

/-! ### Transcription store: deletion (src/main.go `deleteTranscription`)

The two directories are embedded as their listings.  `os.Remove`
succeeds exactly on present names; the transcription removal's error is
returned before the audio file is touched, and the audio removal's
error is discarded. -/

/-- Go `strings.TrimSuffix`. -/
def trimSuffix (s suffix : String) : String :=
  if decide (suffix.data.length ≤ s.data.length) &&
      s.data.drop (s.data.length - suffix.data.length) == suffix.data then
    String.mk (s.data.take (s.data.length - suffix.data.length))
  else s

structure DataDirs where
  transcriptions : List String
  recordings : List String
deriving DecidableEq, Repr

/-- `deleteTranscription` (main.go lines 463-482): remove the
transcription file, failing (and leaving everything unchanged) when it
is absent; then best-effort remove the paired `.wav`, ignoring its
absence. -/
def deleteTranscription (fs : DataDirs) (filename : String) : DataDirs × Option Err :=
  if filename ∈ fs.transcriptions then
    ({ transcriptions := fs.transcriptions.erase filename,
       recordings := fs.recordings.erase (trimSuffix filename ".txt" ++ ".wav") },
      none)
  else
    (fs, some .notFound)

/-- Claim C6: deleting an existing transcription removes it and the
paired audio file named by the same stem with `.wav` (audio absence
leaving the recordings directory unchanged without an error), while
deleting an absent transcription fails with the not-found error and
leaves both directories — in particular the paired audio file —
unchanged. -/
theorem C6_deleteTranscription (fs : DataDirs) (filename : String) :
    (filename ∈ fs.transcriptions →
      (deleteTranscription fs filename).2 = none ∧
        (deleteTranscription fs filename).1.transcriptions =
          fs.transcriptions.erase filename ∧
        (fs.transcriptions.Nodup →
          filename ∉ (deleteTranscription fs filename).1.transcriptions) ∧
        (deleteTranscription fs filename).1.recordings =
          fs.recordings.erase (trimSuffix filename ".txt" ++ ".wav") ∧
        ((trimSuffix filename ".txt" ++ ".wav") ∉ fs.recordings →
          (deleteTranscription fs filename).1.recordings = fs.recordings)) ∧
      (filename ∉ fs.transcriptions →
        deleteTranscription fs filename = (fs, some .notFound)) := by
  constructor
  · intro hmem
    unfold deleteTranscription
    rw [if_pos hmem]
    refine ⟨rfl, rfl, ?_, rfl, ?_⟩
    · intro hnodup
      exact hnodup.not_mem_erase
    · intro habs
      exact List.erase_of_not_mem habs
  · intro hmem
    unfold deleteTranscription
    rw [if_neg hmem]

/-- Witness for C6: a concrete store, one present and one absent name. -/
theorem C6_deleteTranscription_witness :
    (deleteTranscription
        ⟨["2024-06-01-00-00-00.txt"], ["2024-06-01-00-00-00.wav"]⟩
        "2024-06-01-00-00-00.txt").2 = none ∧
      deleteTranscription
          ⟨["2024-06-01-00-00-00.txt"], ["2024-06-01-00-00-00.wav"]⟩
          "zzz.txt" =
        (⟨["2024-06-01-00-00-00.txt"], ["2024-06-01-00-00-00.wav"]⟩,
          some .notFound) :=
  ⟨((C6_deleteTranscription
      ⟨["2024-06-01-00-00-00.txt"], ["2024-06-01-00-00-00.wav"]⟩
      "2024-06-01-00-00-00.txt").1 (by decide)).1,
    (C6_deleteTranscription
      ⟨["2024-06-01-00-00-00.txt"], ["2024-06-01-00-00-00.wav"]⟩
      "zzz.txt").2 (by decide)⟩

/-! ### Application state machine (src/main.go)

The Bubble Tea model is embedded with its logical fields (presentation
fields — viewport, styles, window size — are omitted).  `selectedIndex`
is a Go `int` that the handlers only ever keep at or above zero, embedded
as `Nat`.  Reads of transcription files are supplied by an explicit map
`fs : String → Option String` standing for `loadTranscriptionContent`;
commands are embedded as a tree of dispatched operations, and each
completion message is delivered back through `Update`. -/

inductive RecordingState where
  | idle
  | recording
  | transcribing
  | transcriptionComplete
deriving DecidableEq, Repr

structure Model where
  recordingState : RecordingState
  err : Option Err
  transcription : String
  showCopied : Bool
  showingTranscriptions : Bool
  transcriptionFiles : List String
  selectedIndex : Nat
  selectedContent : String
  showingDeleteConfirmation : Bool
  helpShowAll : Bool
deriving DecidableEq, Repr

/-- The asynchronous operations the state machine dispatches. -/
inductive Op where
  | startRec
  | stopRec
  | transcribe
  | copyClip (text : String)
  | loadList
  | deleteFile (name : String)
  | tick
  | quit
deriving DecidableEq, Repr

/-- Commands: `tea.Cmd` values as dispatched by this program — a single
operation, `tea.Sequence` of two (run one after the other, each
completion observed before the next starts), or `tea.Batch` of two (run
concurrently). -/
inductive Cmd where
  | none
  | prim (op : Op)
  | seq (a b : Cmd)
  | batch (a b : Cmd)
deriving DecidableEq, Repr

/-- Messages delivered to `Update` (main.go lines 82-91 and the
completion values of `loadTranscriptions` / `deleteTranscription`). -/
inductive Msg where
  | recordingStarted
  | recordingStopped (err : Option Err)
  | transcriptionFinished (text : String) (err : Option Err)
  | copyToClipboard (err : Option Err)
  | tick
  | filesLoaded (files : List String)
  | errMsg (e : Err)
  | key (k : String)
deriving DecidableEq, Repr

/-! Key bindings (main.go lines 165-210); `matchesKey` is `key.Matches`. -/

def recordKeys : List String := ["r"]

def stopRecordingKeys : List String := [" ", "enter"]

def copyToClipKeys : List String := ["c", "y"]

def listTranscriptionsKeys : List String := ["l"]

def helpKeys : List String := ["?"]

def backKeys : List String := ["esc"]

def upKeys : List String := ["up", "k"]

def downKeys : List String := ["down", "j"]

def quitKeys : List String := ["q", "ctrl+c"]

def deleteKeys : List String := ["d"]

def confirmKeys : List String := ["enter"]

def matchesKey (k : String) (binding : List String) : Bool :=
  decide (k ∈ binding)

/-- `handleRecordingUpdate` (main.go lines 353-381) on a key message;
a matched case with a false guard falls through to `return m, cmd`
with `cmd` nil. -/
def handleRecordingUpdate (m : Model) (k : String) : Model × Cmd :=
  if matchesKey k recordKeys then
    if m.recordingState = .idle ∨ m.recordingState = .transcriptionComplete then
      ({ m with transcription := "" }, .prim .startRec)
    else (m, .none)
  else if matchesKey k stopRecordingKeys then
    if m.recordingState = .recording then
      (m, .seq (.prim .stopRec) (.prim .transcribe))
    else (m, .none)
  else if matchesKey k copyToClipKeys then
    if m.transcription ≠ "" ∧ m.recordingState = .transcriptionComplete then
      (m, .prim (.copyClip m.transcription))
    else (m, .none)
  else (m, .none)

/-- `handleTranscriptionListUpdate` (main.go lines 484-555) on a key
message.  The source indexes `m.transcriptionFiles[m.selectedIndex]`
directly (a Go panic when out of range); the embedding uses `getD`,
which agrees whenever the index is in range. -/
def handleTranscriptionListUpdate (fs : String → Option String) (m : Model)
    (k : String) : Model × Cmd :=
  if m.showingDeleteConfirmation then
    if matchesKey k confirmKeys then
      if m.transcriptionFiles.length ≠ 0 then
        ({ m with showingDeleteConfirmation := false },
          .prim (.deleteFile (m.transcriptionFiles.getD m.selectedIndex "")))
      else (m, .none)
    else if matchesKey k backKeys then
      ({ m with showingDeleteConfirmation := false }, .none)
    else (m, .none)
  else if matchesKey k deleteKeys then
    if m.transcriptionFiles.length ≠ 0 then
      ({ m with showingDeleteConfirmation := true }, .none)
    else (m, .none)
  else if matchesKey k recordKeys then
    ({ m with
        showingTranscriptions := false, showCopied := false,
        transcription := "", recordingState := .idle }, .prim .startRec)
  else if matchesKey k upKeys then
    if 0 < m.selectedIndex then
      let m1 := { m with selectedIndex := m.selectedIndex - 1, showCopied := false }
      match fs (m1.transcriptionFiles.getD m1.selectedIndex "") with
      | some content => ({ m1 with selectedContent := content }, .none)
      | Option.none => (m1, .none)
    else (m, .none)
  else if matchesKey k downKeys then
    if m.selectedIndex < m.transcriptionFiles.length - 1 then
      let m1 := { m with selectedIndex := m.selectedIndex + 1, showCopied := false }
      match fs (m1.transcriptionFiles.getD m1.selectedIndex "") with
      | some content => ({ m1 with selectedContent := content }, .none)
      | Option.none => (m1, .none)
    else (m, .none)
  else if matchesKey k copyToClipKeys then
    if m.selectedContent ≠ "" then
      ({ m with showCopied := false }, .prim (.copyClip m.selectedContent))
    else (m, .none)
  else if matchesKey k backKeys then
    ({ m with
        showingTranscriptions := false, showCopied := false,
        recordingState := .idle }, .none)
  else (m, .none)

/-- `model.Update` (main.go lines 589-724), without the window-size /
viewport bookkeeping.  On `copyToClipboard` success the source returns
`tea.Batch(cmd, tea.Sequence(tick))` with `cmd` nil. -/
def Update (fs : String → Option String) (m : Model) : Msg → Model × Cmd
  | .recordingStarted =>
    ({ m with recordingState := .recording, err := Option.none }, .none)
  | .recordingStopped e =>
    match e with
    | some e => ({ m with err := some e, recordingState := .idle }, .none)
    | Option.none => ({ m with recordingState := .transcribing }, .none)
  | .transcriptionFinished text e =>
    let m1 := { m with recordingState := .transcriptionComplete }
    match e with
    | some e => ({ m1 with err := some e }, .none)
    | Option.none =>
      let m2 := { m1 with transcription := text }
      if m2.showingTranscriptions then (m2, .prim .loadList) else (m2, .none)
  | .copyToClipboard e =>
    match e with
    | some e => ({ m with err := some e }, .none)
    | Option.none =>
      ({ m with showCopied := true }, .batch .none (.prim .tick))
  | .tick => ({ m with showCopied := false }, .none)
  | .filesLoaded files =>
    let m1 := { m with transcriptionFiles := files }
    if 0 < files.length then
      match fs (files.getD 0 "") with
      | some content => ({ m1 with selectedContent := content }, .none)
      | Option.none => (m1, .none)
    else (m1, .none)
  | .errMsg e => ({ m with err := some e }, .none)
  | .key k =>
    if matchesKey k backKeys && m.helpShowAll then
      ({ m with helpShowAll := false }, .none)
    else if matchesKey k helpKeys then
      ({ m with helpShowAll := !m.helpShowAll }, .none)
    else if matchesKey k quitKeys then
      (m, .prim .quit)
    else if matchesKey k listTranscriptionsKeys then
      let m1 := { m with showingTranscriptions := !m.showingTranscriptions }
      if m1.showingTranscriptions then
        ({ m1 with selectedIndex := 0, selectedContent := "" }, .prim .loadList)
      else (m1, .none)
    else if m.helpShowAll then (m, .none)
    else if m.showingTranscriptions then handleTranscriptionListUpdate fs m k
    else handleRecordingUpdate m k

/-- `initialModel` (main.go lines 282-301), logical fields. -/
def initialModel : Model :=
  { recordingState := .idle, err := Option.none, transcription := "",
    showCopied := false, showingTranscriptions := false,
    transcriptionFiles := [], selectedIndex := 0, selectedContent := "",
    showingDeleteConfirmation := false, helpShowAll := false }

/-- Run a sequence of messages through `Update`, discarding the
dispatched commands (whose completions are themselves delivered as
later messages in the sequence). -/
def runMsgs (fs : String → Option String) (m : Model) : List Msg → Model
  | [] => m
  | msg :: rest => runMsgs fs (Update fs m msg).1 rest

/-! ### Events and traces of commands

Each dispatched operation contributes a start and a finish event;
`tea.Sequence` concatenates the traces of its parts in order (the next
part starts only after the previous part's completion message), while
`tea.Batch` allows every interleaving of its parts' events. -/

inductive Event where
  | start (op : Op)
  | finish (op : Op)
deriving DecidableEq, Repr

def interleave2 : List Event → List Event → List (List Event)
  | [], ys => [ys]
  | x :: xs, [] => [x :: xs]
  | x :: xs, y :: ys =>
    ((interleave2 xs (y :: ys)).map (x :: ·)) ++
      ((interleave2 (x :: xs) ys).map (y :: ·))
termination_by l1 l2 => l1.length + l2.length

def traces : Cmd → List (List Event)
  | .none => [[]]
  | .prim op => [[.start op, .finish op]]
  | .seq a b => (traces a).flatMap fun ta => (traces b).map fun tb => ta ++ tb
  | .batch a b =>
    (traces a).flatMap fun ta => (traces b).flatMap fun tb => interleave2 ta tb

/-- `e1` occurs strictly before `e2` in the trace. -/
def precedes (e1 e2 : Event) (tr : List Event) : Prop :=
  e1 ∈ tr ∧ e2 ∈ tr ∧ tr.indexOf e1 < tr.indexOf e2

instance (e1 e2 : Event) (tr : List Event) : Decidable (precedes e1 e2 tr) := by
  unfold precedes
  infer_instance

/-- The command returned for the Stop key in the Recording state
(main.go lines 367-370): `tea.Sequence(stopRecording(...), transcribe(...))`. -/
def stopThenTranscribeCmd : Cmd :=
  .seq (.prim .stopRec) (.prim .transcribe)

/-- Claim C9: in the Recording state, a Stop key produces the explicit
ordered composition of the stop and transcribe units — not a concurrent
batch — and in every trace of that command the stop unit's completion
event strictly precedes the transcribe unit's start event. -/
theorem C9_stop_then_transcribe_ordered (m : Model) (k : String)
    (hrec : m.recordingState = .recording)
    (hk : matchesKey k stopRecordingKeys = true) :
    handleRecordingUpdate m k = (m, stopThenTranscribeCmd) ∧
      ∀ tr ∈ traces stopThenTranscribeCmd,
        precedes (.finish .stopRec) (.start .transcribe) tr := by
  have hk' : k = " " ∨ k = "enter" := by
    unfold matchesKey at hk
    have := of_decide_eq_true hk
    simpa [stopRecordingKeys] using this
  refine ⟨?_, by decide⟩
  rcases hk' with rfl | rfl
  all_goals
    unfold handleRecordingUpdate
    rw [if_neg (by decide), if_pos (by decide), if_pos hrec]
    rfl

/-- A concrete model in the Recording state, for witnesses. -/
def recordingModelC9 : Model :=
  { initialModel with recordingState := .recording }

/-- Witness for C9 at a concrete recording-state model and the space key. -/
theorem C9_stop_then_transcribe_ordered_witness :
    handleRecordingUpdate recordingModelC9 " " = (recordingModelC9, stopThenTranscribeCmd) :=
  (C9_stop_then_transcribe_ordered recordingModelC9 " " rfl (by decide)).1

/-- Claim C4: every transcription-finished message carrying an error sets
the displayed error to that error and still advances the recording state
to Complete — it never leaves the machine in Transcribing. -/
theorem C4_transcription_error_still_completes (fs : String → Option String)
    (m : Model) (text : String) (e : Err) :
    (Update fs m (.transcriptionFinished text (some e))).1.recordingState =
        .transcriptionComplete ∧
      (Update fs m (.transcriptionFinished text (some e))).1.err = some e ∧
      (Update fs m (.transcriptionFinished text (some e))).1.recordingState ≠
        .transcribing := by
  refine ⟨rfl, rfl, ?_⟩
  intro h
  exact RecordingState.noConfusion h

/-! ### The selection index (claim C1) -/

theorem handleList_up_index (fs : String → Option String) (m : Model) (k : String)
    (hconf : m.showingDeleteConfirmation = false)
    (hk : matchesKey k upKeys = true) :
    (handleTranscriptionListUpdate fs m k).1.transcriptionFiles =
        m.transcriptionFiles ∧
      (handleTranscriptionListUpdate fs m k).1.selectedIndex =
        m.selectedIndex - 1 := by
  have hk' : k = "up" ∨ k = "k" := by
    unfold matchesKey at hk
    have := of_decide_eq_true hk
    simpa [upKeys] using this
  rcases hk' with rfl | rfl
  all_goals
    unfold handleTranscriptionListUpdate
    rw [if_neg (by simp [hconf]), if_neg (by decide), if_neg (by decide),
      if_pos (by decide)]
    by_cases hi : 0 < m.selectedIndex
    case pos =>
      rw [if_pos hi]
      dsimp only
      cases hfs : fs (m.transcriptionFiles.getD (m.selectedIndex - 1) "") with
      | none => exact ⟨rfl, rfl⟩
      | some c => exact ⟨rfl, rfl⟩
    case neg =>
      rw [if_neg hi]
      refine ⟨rfl, ?_⟩
      show m.selectedIndex = m.selectedIndex - 1
      omega

theorem handleList_down_index (fs : String → Option String) (m : Model) (k : String)
    (hconf : m.showingDeleteConfirmation = false)
    (hk : matchesKey k downKeys = true) :
    (handleTranscriptionListUpdate fs m k).1.transcriptionFiles =
        m.transcriptionFiles ∧
      (handleTranscriptionListUpdate fs m k).1.selectedIndex =
        (if m.selectedIndex < m.transcriptionFiles.length - 1 then
          m.selectedIndex + 1 else m.selectedIndex) := by
  have hk' : k = "down" ∨ k = "j" := by
    unfold matchesKey at hk
    have := of_decide_eq_true hk
    simpa [downKeys] using this
  rcases hk' with rfl | rfl
  all_goals
    unfold handleTranscriptionListUpdate
    rw [if_neg (by simp [hconf]), if_neg (by decide), if_neg (by decide),
      if_neg (by decide), if_pos (by decide)]
    by_cases hi : m.selectedIndex < m.transcriptionFiles.length - 1
    case pos =>
      rw [if_pos hi, if_pos hi]
      dsimp only
      cases hfs : fs (m.transcriptionFiles.getD (m.selectedIndex + 1) "") with
      | none => exact ⟨rfl, rfl⟩
      | some c => exact ⟨rfl, rfl⟩
    case neg =>
      rw [if_neg hi, if_neg hi]
      exact ⟨rfl, rfl⟩

/-- The model after: enter the list view with two transcriptions on
disk, move the selection down to the second entry, delete it, and
receive the reloaded one-element list. -/
def c1FinalModel : Model :=
  runMsgs (fun _ => some "c") initialModel
    [.key "l",
     .filesLoaded ["2024-06-01-00-00-00.txt", "2024-01-01-00-00-00.txt"],
     .key "j", .key "d", .key "enter",
     .filesLoaded ["2024-06-01-00-00-00.txt"]]

/-- C1 as stated is false on the delete-then-reload path: starting from
the initial model, enter the list view with two transcriptions on disk,
move the selection down to the second entry, delete it and receive the
reloaded one-element list; the file list is non-empty but the selection
index 1 is outside the bounds `[0, 0]` of the new list, because the
list-replacement handler never re-validates the index. -/
theorem C1_counterexample :
    c1FinalModel.transcriptionFiles ≠ [] ∧
      ¬ (c1FinalModel.selectedIndex < c1FinalModel.transcriptionFiles.length) := by
  decide

/-- Claim C1, amended: within the list view's own navigation the index is
always clamped — Up at index 0 and Down at the last index leave it
unchanged, and Up/Down keep an in-bounds index in bounds while leaving
the file list itself unchanged — and entering the list view resets the
index to 0; but the handler that installs a replacement file list keeps
the previous index unchanged without re-validating it, so after the
delete-then-reload path the index can lie outside the bounds of the new,
shorter list. -/
theorem C1_selection_bounds (fs : String → Option String) (m : Model) (k : String)
    (hconf : m.showingDeleteConfirmation = false)
    (hidx : m.selectedIndex < m.transcriptionFiles.length) :
    (matchesKey k upKeys = true →
      (handleTranscriptionListUpdate fs m k).1.transcriptionFiles =
          m.transcriptionFiles ∧
        (handleTranscriptionListUpdate fs m k).1.selectedIndex <
          m.transcriptionFiles.length ∧
        (m.selectedIndex = 0 →
          (handleTranscriptionListUpdate fs m k).1.selectedIndex = 0)) ∧
      (matchesKey k downKeys = true →
        (handleTranscriptionListUpdate fs m k).1.transcriptionFiles =
            m.transcriptionFiles ∧
          (handleTranscriptionListUpdate fs m k).1.selectedIndex <
            m.transcriptionFiles.length ∧
          (m.selectedIndex = m.transcriptionFiles.length - 1 →
            (handleTranscriptionListUpdate fs m k).1.selectedIndex =
              m.selectedIndex)) ∧
      (∀ files : List String,
        (Update fs m (.filesLoaded files)).1.transcriptionFiles = files ∧
          (Update fs m (.filesLoaded files)).1.selectedIndex = m.selectedIndex) ∧
      (m.helpShowAll = false → m.showingTranscriptions = false →
        (Update fs m (.key "l")).1.selectedIndex = 0) := by
  refine ⟨?_, ?_, ?_, ?_⟩
  · intro hk
    obtain ⟨hf, hi⟩ := handleList_up_index fs m k hconf hk
    exact ⟨hf, by omega, by omega⟩
  · intro hk
    obtain ⟨hf, hi⟩ := handleList_down_index fs m k hconf hk
    refine ⟨hf, ?_, ?_⟩
    · rw [hi]
      split <;> omega
    · intro hlast
      rw [hi, if_neg (by omega)]
  · intro files
    simp only [Update]
    by_cases h : 0 < files.length
    case pos =>
      rw [if_pos h]
      cases hfs : fs (files.getD 0 "") with
      | none => exact ⟨rfl, rfl⟩
      | some c => exact ⟨rfl, rfl⟩
    case neg =>
      rw [if_neg h]
      exact ⟨rfl, rfl⟩
  · intro hhelp hshow
    simp only [Update]
    rw [if_neg (by rw [hhelp, Bool.and_false]; exact Bool.false_ne_true),
      if_neg (by decide), if_neg (by decide), if_pos (by decide)]
    rw [hshow]
    rfl

/-- A concrete list-view model with one file and an in-bounds selection,
for witnesses. -/
def listModelC1 : Model :=
  { initialModel with
      showingTranscriptions := true,
      transcriptionFiles := ["2024-06-01-00-00-00.txt"] }

/-- Witness for C1 (amended): Up at index 0 of a one-element list leaves
the index at 0. -/
theorem C1_selection_bounds_witness :
    (handleTranscriptionListUpdate (fun _ => Option.none) listModelC1 "up").1.selectedIndex = 0 :=
  ((C1_selection_bounds (fun _ => Option.none) listModelC1 "up" rfl
    (by decide)).1 (by decide)).2.2 rfl

end LazyWhisper
